import Mathlib

/-!
Verification of the AstroLink 4 Pi INDI focuser driver
(`src/astrolink4pi.cpp`): a shallow embedding of the motion controller
(`MoveAbsFocuser`), the motion worker (`getMotorThread`), position
persistence (`savePosition` callers), resolution rescaling (the
`FocusResolutionSP` branch of `ISNewSwitch`), thermal compensation
(`temperatureCompensation`), the TSL2591 light-sensor accumulation state
machine (`readTSL`) and the ADS1115 power-sensor acquisition cycle
(`readPower`), together with theorems checking the specification's claims
about these components.

Doubles of the C++ source are embedded as exact rationals (`ℚ`);
machine integers (`int`, `uint32_t`, `int16_t`) as `ℤ` with explicit
wrap-around where the source can overflow (`toInt16`).  The worker thread
is embedded as a fuel-indexed loop, run under the assumption that the
shared `_abort` flag is never set.
-/

namespace AstroLink4Pi

/-- INDI property states used by the driver (`IPS_IDLE`, `IPS_OK`,
`IPS_BUSY`, `IPS_ALERT`). -/
inductive IPState where
  | Idle
  | Ok
  | Busy
  | Alert
  deriving DecidableEq

/-- MAX_RESOLUTION (line 25): the finest supported microstep resolution,
1/32 step. -/
def MAX_RESOLUTION : ℤ := 32

/-- The controller state read and written by `MoveAbsFocuser`
(lines 917-976): the absolute position and its bound
(`FocusAbsPosNP[0]`, whose min is fixed at 0 by `initProperties`,
line 392), the remembered direction of the last commanded move
(`lastDirection`), the configured backlash (`FocusBacklashNP[0]`) and the
backlash budget handed to the worker (`backlashTicksRemaining`). -/
structure FocuserState where
  pos : ℤ
  maxPos : ℤ
  lastDirection : ℤ
  backlashConfig : ℤ
  backlashTicksRemaining : ℤ
  deriving DecidableEq

/-- The immutable parameters `MoveAbsFocuser` hands to the motion worker it
spawns (line 974): target position, direction and backlash budget. -/
structure MotionRequest where
  targetPos : ℤ
  direction : ℤ
  backlash : ℤ
  deriving DecidableEq

/-- Modelled from the spec: the driver's header file (not under `src/`)
declares the remembered direction `lastDirection` with initializer 0 — the
"no previous move" value; the `.cpp` only ever assigns it ±1 afterwards
(line 963) and tests it against 0 (line 952). -/
def initialLastDirection : ℤ := 0

/-- Embedding of `AstroLink4Pi::MoveAbsFocuser` (lines 917-976): reject a
target outside `[getMin() = 0, getMax()]` with `IPS_ALERT` before any other
effect; return `IPS_OK` as a no-op when the target equals the current
position; otherwise derive the direction from the sign of
`target - position`, set the backlash budget to the configured backlash iff
the direction reversed relative to a remembered previous move
(lines 952-961), remember the new direction, and spawn a worker with these
parameters, returning `IPS_BUSY`.  The result is
(returned state, controller state after the call, spawned request). -/
def MoveAbsFocuser (s : FocuserState) (targetTicks : ℤ) :
    IPState × FocuserState × Option MotionRequest :=
  if targetTicks < 0 ∨ targetTicks > s.maxPos then (.Alert, s, none)
  else if targetTicks = s.pos then (.Ok, s, none)
  else
    let newDirection : ℤ := if targetTicks > s.pos then 1 else -1
    let btr : ℤ :=
      if s.lastDirection ≠ 0 ∧ newDirection ≠ s.lastDirection ∧ s.backlashConfig ≠ 0
      then s.backlashConfig else 0
    (.Busy,
     { s with lastDirection := newDirection, backlashTicksRemaining := btr },
     some ⟨targetTicks, newDirection, btr⟩)

/-- One iteration of the worker loop body of `AstroLink4Pi::getMotorThread`
(lines 985-1014) on the state `(currentPos, backlashTicksRemaining)`: when
the backlash budget is exhausted (`backlashTicksRemaining <= 0`, line 1005)
the pulse advances `currentPos` by the direction; otherwise the pulse only
decrements the budget and does not move the position counter
(lines 1009-1012). -/
def motorStep (direction : ℤ) (s : ℤ × ℤ) : ℤ × ℤ :=
  if s.2 ≤ 0 then (s.1 + direction, s.2) else (s.1, s.2 - 1)

/-- The worker loop `while (currentPos != targetPos && !_abort)` of
`getMotorThread` (line 985), run with `_abort` never set, indexed by fuel:
`some` of the final `(currentPos, backlashTicksRemaining)` when the loop
exits within the fuel, `none` when the fuel runs out first. -/
def motorRun (targetPos direction : ℤ) : ℕ → ℤ × ℤ → Option (ℤ × ℤ)
  | 0, s => if s.1 = targetPos then some s else none
  | fuel + 1, s =>
      if s.1 = targetPos then some s
      else motorRun targetPos direction fuel (motorStep direction s)

/-- The value the worker persists on exit (line 1024):
`(int)FocusAbsPosNP[0].getValue() * MAX_RESOLUTION / resolution` — the
final position normalized to the finest-resolution unit ("always save at
MAX_RESOLUTION"). -/
def motorThreadSavedPosition (finalPos resolution : ℤ) : ℤ :=
  finalPos * MAX_RESOLUTION / resolution

/-- The value `AstroLink4Pi::SyncFocuser` persists (line 1152):
`savePosition(ticks)` — the raw tick value, with no resolution
normalization. -/
def syncFocuserSavedPosition (ticks : ℤ) : ℤ := ticks

/-- The microstep resolutions the driver offers (`FocusResolutionSP`,
lines 724-745). -/
def isResolution (r : ℤ) : Prop :=
  r = 1 ∨ r = 2 ∨ r = 4 ∨ r = 8 ∨ r = 16 ∨ r = 32

instance (r : ℤ) : Decidable (isResolution r) := by
  unfold isResolution; infer_instance

/-- Line 748: `last_resolution * (value / last_resolution -
(int)value / last_resolution)` — the fractional part of the position with
respect to the old resolution, in old-resolution microsteps.  The double
division by a power of two is exact, so the expression equals
`pos - lastRes * (pos / lastRes)` over `ℤ`. -/
def position_adjustment (pos lastRes : ℤ) : ℤ :=
  pos - lastRes * (pos / lastRes)

/-- The corrective realignment displacement the resolution-change handler
issues (lines 749-761): only when switching to a coarser resolution
(`resolution < last_resolution`) and the fractional part is positive; the
displacement is `-remainder` when `remainder / last_resolution < 0.5` and
`last_resolution - remainder` otherwise. -/
def resolutionAdjustment (pos lastRes newRes : ℤ) : ℤ :=
  if newRes < lastRes ∧ 0 < position_adjustment pos lastRes then
    (if ((position_adjustment pos lastRes : ℚ) / (lastRes : ℚ) < 1 / 2)
     then -(position_adjustment pos lastRes)
     else lastRes - position_adjustment pos lastRes)
  else 0

/-- The position the `FocusResolutionSP` handler (lines 747-775) would
leave under the spec's sequential intent: the corrective move finishing
before the rescaling, so the realigned position (when `MoveAbsFocuser`
accepts the corrected target inside `[0, getMax()]`) is what gets rescaled
by `* resolution / last_resolution` in integer arithmetic (line 775).
This is NOT the source's program order — see
`changeResolutionPosProgramOrder`. -/
def changeResolutionPos (pos maxPos lastRes newRes : ℤ) : ℤ :=
  (if resolutionAdjustment pos lastRes newRes ≠ 0 ∧
      0 ≤ pos + resolutionAdjustment pos lastRes newRes ∧
      pos + resolutionAdjustment pos lastRes newRes ≤ maxPos
   then pos + resolutionAdjustment pos lastRes newRes
   else pos) * newRes / lastRes

/-- The position the `FocusResolutionSP` handler leaves in the source's
program order: line 760 spawns the corrective move asynchronously through
`MoveAbsFocuser` (each worker pulse takes at least the configured step
delay, milliseconds), the handler rescales the position microseconds later
(line 775), and the worker — whose loop runs until `currentPos` equals its
target and which publishes `currentPos` on exit (lines 985, 1017-1020) —
then overwrites the rescaled value with the corrective target, still in
old-resolution units.  So when a corrective worker is spawned (nonzero
displacement, target accepted inside `[0, getMax()]`) the final position
is `pos + adjustment` in old units; only when no worker is spawned does
the line-775 rescale stand. -/
def changeResolutionPosProgramOrder (pos maxPos lastRes newRes : ℤ) : ℤ :=
  if resolutionAdjustment pos lastRes newRes ≠ 0 ∧
      0 ≤ pos + resolutionAdjustment pos lastRes newRes ∧
      pos + resolutionAdjustment pos lastRes newRes ≤ maxPos
  then pos + resolutionAdjustment pos lastRes newRes
  else pos * newRes / lastRes

/-- C `round()` as used at line 1184: round half away from zero. -/
def roundHalfAway (q : ℚ) : ℤ :=
  if 0 ≤ q then ⌊q + 1 / 2⌋ else -⌊-q + 1 / 2⌋

/-- Embedding of `AstroLink4Pi::temperatureCompensation` (lines 1171-1190).
Inputs: the `isConnected()` and `TemperatureCompensateS[0]` switches, the
current temperature reading `FocusTemperatureN[0]`, the recorded
`lastTemperature`, the coefficient `TemperatureCoefN[0]`, the
steps-per-critical-focus-zone `FocuserInfoN[2]` and the current position.
Result: (the target handed to `MoveAbsFocuser` when a compensating move is
issued, the value of `lastTemperature` after the call — line 1186 assigns
it the current temperature in the same branch that issues the move). -/
def temperatureCompensation (connected compensateEnabled : Bool)
    (currentTemp lastTemperature coefficient stepsPerCFZ : ℚ) (pos : ℤ) :
    Option ℤ × ℚ :=
  if connected = false then (none, lastTemperature)
  else if compensateEnabled = true ∧ currentTemp ≠ lastTemperature then
    (if |coefficient * (currentTemp - lastTemperature)| > stepsPerCFZ / 2 then
      (some (pos + roundHalfAway (coefficient * (currentTemp - lastTemperature))),
       currentTemp)
     else (none, lastTemperature))
  else (none, lastTemperature)

/-- The accumulation state of the TSL2591 light-sensor state machine
(`readTSL`, lines 1447-1487): the cycle counter `niter` and the running
channel sums `fullCumulative`, `irCumulative`. -/
structure TSLState where
  niter : ℕ
  fullCumulative : ℤ
  irCumulative : ℤ
  deriving DecidableEq

/-- The reset accumulation state (lines 1480-1481). -/
def tslInit : TSLState := ⟨0, 0, 0⟩

/-- One read-out event of `readTSL` (lines 1459-1482): the integration
period has elapsed and the two channels read `full` and `ir`.  A corrupt
sample (`full < ir`, line 1467) is discarded without touching the state.
While `niter < 5 || (visCumulative < 500 && niter < 150)` (line 1468) the
sample is accumulated.  Otherwise the reading is finalized: the state is
reset and the normalized visible value `visCumulative / (29628 * niter)`
(line 1476) is published; the driver converts it to the brightness
`12.6 - 1.086 * log(VIS) + SQMOffset + FILTER_COEFF` (line 1477, with
`FILTER_COEFF = -1.2`).  Note `visCumulative` is computed before the
current sample is added (line 1466), and the sample consumed by a
finalizing event is not accumulated. -/
def tslReadStep (s : TSLState) (full ir : ℤ) : TSLState × Option ℚ :=
  if full < ir then (s, none)
  else if s.niter < 5 ∨ (s.fullCumulative - s.irCumulative < 500 ∧ s.niter < 150) then
    (⟨s.niter + 1, s.fullCumulative + full, s.irCumulative + ir⟩, none)
  else
    (tslInit,
     some ((s.fullCumulative - s.irCumulative : ℚ) / (29628 * (s.niter : ℚ))))

/-- A sequence of accumulating read-out events, one per `(full, ir)`
sample. -/
def tslAccumulate (s : TSLState) (samples : List (ℤ × ℤ)) : TSLState :=
  samples.foldl (fun st p => (tslReadStep st p.1 p.2).1) s

/-- `int16_t val = readBuf[0] * 255 + readBuf[1]` (line 1663): the two's
complement 16-bit value of the integer `n`. -/
def toInt16 (n : ℤ) : ℤ := (n + 32768) % 65536 - 32768

/-- The power-sensor acquisition state (`readPower`, lines 1604-1710): the
cycle index `powerIndex` and the persistent `PowerReadingsN` values and
energy accumulators. -/
structure PowerState where
  powerIndex : ℕ
  vin : ℚ
  vreg : ℚ
  itot : ℚ
  ptot : ℚ
  ah : ℚ
  wh : ℚ
  energyAs : ℚ
  energyWs : ℚ
  deriving DecidableEq

/-- The acquirer's starting state: index 0, all readings and accumulators
zero. -/
def powerInit : PowerState := ⟨0, 0, 0, 0, 0, 0, 0, 0, 0⟩

/-- One invocation of `readPower` with the ADS1115 reachable
(lines 1612-1704).  Even `powerIndex`: write the trigger command selecting
channel `powerIndex / 2` (cases 0/2/4, lines 1633-1644; returned as the
second component).  Odd `powerIndex`: when the address write and the
2-byte read both succeed, assemble `val = readBuf[0] * 255 + readBuf[1]`
as a signed 16-bit value (line 1663), scale it into the channel selected
by `powerIndex` (1 → Vin, 3 → Vreg, 5 → Itot, lines 1665-1676, with
`ACS_TYPE = 0`), then — on every successful odd read, not only the Itot
one — recompute the total power and integrate the energy accumulators by
`itot * 0.4` and `vin * itot * 0.4` (lines 1677-1681).  In every case the
index advances by one and wraps from 5 back to 0 (lines 1697-1699). -/
def readPowerStep (s : PowerState) (writeOk readOk : Bool) (b0 b1 : ℤ) :
    PowerState × Option ℕ :=
  let nextIndex : ℕ := if s.powerIndex + 1 > 5 then 0 else s.powerIndex + 1
  if s.powerIndex % 2 = 0 then
    ({ s with powerIndex := nextIndex }, some (s.powerIndex / 2))
  else if writeOk = true ∧ readOk = true then
    let val := toInt16 (b0 * 255 + b1)
    let s2 :=
      if s.powerIndex = 1 then { s with vin := (val : ℚ) / 32768 * 4.096 * 6.6 }
      else if s.powerIndex = 3 then { s with vreg := (val : ℚ) / 32768 * 4.096 * 6.6 }
      else if s.powerIndex = 5 then { s with itot := (val : ℚ) / 32768 * 4.096 * 1 * 20 }
      else s
    ({ s2 with
        powerIndex := nextIndex,
        ptot := s2.vin * s2.itot,
        energyAs := s2.energyAs + s2.itot * 0.4,
        energyWs := s2.energyWs + s2.vin * s2.itot * 0.4,
        ah := (s2.energyAs + s2.itot * 0.4) / 3600,
        wh := (s2.energyWs + s2.vin * s2.itot * 0.4) / 3600 }, none)
  else ({ s with powerIndex := nextIndex }, none)

/-- A `readPower` tick with the sensor reachable and the bus transfers
succeeding, keeping only the state. -/
def powerTick (s : PowerState) (b0 b1 : ℤ) : PowerState :=
  (readPowerStep s true true b0 b1).1

/-- Seven consecutive `readPower` ticks from the initial state: trigger
Vin, read Vin bytes (1, 0), trigger Vreg, read Vreg (0, 0), trigger Itot,
read Itot bytes (1, 0) — giving a nonzero total current — and trigger Vin
again, leaving the acquirer at index 1, about to read Vin. -/
def cexPowerTrace7 : PowerState :=
  powerTick (powerTick (powerTick (powerTick (powerTick (powerTick
    (powerTick powerInit 0 0) 1 0) 0 0) 0 0) 0 0) 1 0) 0 0

/-- The eighth tick: a successful Vin read with bytes (0, 0). -/
def cexPowerTrace8 : PowerState := powerTick cexPowerTrace7 0 0

/-! ## Lemmas about the motion worker loop -/

theorem motorRun_zero (targetPos direction : ℤ) (s : ℤ × ℤ) :
    motorRun targetPos direction 0 s = if s.1 = targetPos then some s else none := rfl

theorem motorRun_succ (targetPos direction : ℤ) (fuel : ℕ) (s : ℤ × ℤ) :
    motorRun targetPos direction (fuel + 1) s =
      if s.1 = targetPos then some s
      else motorRun targetPos direction fuel (motorStep direction s) := rfl

/-- While the backlash budget is positive, a worker pulse leaves the
position counter unchanged and only decrements the budget: after `k ≤ b`
pulses from `(pos, b)` the state is `(pos, b - k)`. -/
theorem motorStep_iterate_backlash (direction pos b : ℤ) (k : ℕ) (hk : (k : ℤ) ≤ b) :
    (motorStep direction)^[k] (pos, b) = (pos, b - k) := by
  induction k with
  | zero => simp
  | succ n ih =>
      have hn : (n : ℤ) ≤ b := by push_cast at hk ⊢; omega
      rw [Function.iterate_succ_apply', ih hn]
      simp only [motorStep]
      rw [if_neg (by push_cast at hk ⊢; omega)]
      simp only [Prod.mk.injEq, true_and]
      omega

/-- Running the worker loop from a backlash budget of `b` first consumes
the whole budget without moving the position counter. -/
theorem motorRun_backlash_phase (targetPos direction pos : ℤ)
    (hne : pos ≠ targetPos) (b f : ℕ) :
    motorRun targetPos direction (b + f) (pos, (b : ℤ)) =
      motorRun targetPos direction f (pos, 0) := by
  induction b with
  | zero => norm_num
  | succ n ih =>
      have harith : n + 1 + f = (n + f) + 1 := by omega
      rw [harith, motorRun_succ, if_neg hne]
      have hstep : motorStep direction (pos, ((n + 1 : ℕ) : ℤ)) = (pos, (n : ℤ)) := by
        simp only [motorStep]
        rw [if_neg (by push_cast; omega)]
        simp only [Prod.mk.injEq, true_and]
        omega
      rw [hstep, ih]

/-- With the budget exhausted and the direction pointing from the current
position to the target, the worker loop reaches the target in exactly the
remaining distance in pulses. -/
theorem motorRun_travel (targetPos direction : ℤ)
    (hdir : direction = 1 ∨ direction = -1) :
    ∀ (d : ℕ) (pos : ℤ), targetPos = pos + direction * d →
      motorRun targetPos direction d (pos, 0) = some (targetPos, 0) := by
  intro d
  induction d with
  | zero =>
      intro pos h
      rw [motorRun_zero]
      have : pos = targetPos := by push_cast at h; omega
      simp [this]
  | succ n ih =>
      intro pos h
      have hne : pos ≠ targetPos := by
        rcases hdir with h1 | h1 <;> subst h1 <;> push_cast at h ⊢ <;> omega
      rw [motorRun_succ, if_neg hne]
      have hstep : motorStep direction (pos, 0) = (pos + direction, 0) := by
        simp [motorStep]
      rw [hstep]
      apply ih
      push_cast at h ⊢
      linarith [h]

/-- In the non-rejected, non-no-op case `MoveAbsFocuser` returns busy, the
derived direction and backlash budget, and the spawned request. -/
theorem MoveAbsFocuser_busy (s : FocuserState) (t : ℤ)
    (h0 : ¬(t < 0 ∨ t > s.maxPos)) (hne : t ≠ s.pos) :
    MoveAbsFocuser s t =
      (.Busy,
       { s with
          lastDirection := (if t > s.pos then 1 else -1),
          backlashTicksRemaining :=
            (if s.lastDirection ≠ 0 ∧ (if t > s.pos then (1 : ℤ) else -1) ≠ s.lastDirection ∧
                s.backlashConfig ≠ 0
             then s.backlashConfig else 0) },
       some ⟨t, (if t > s.pos then 1 else -1),
             (if s.lastDirection ≠ 0 ∧ (if t > s.pos then (1 : ℤ) else -1) ≠ s.lastDirection ∧
                 s.backlashConfig ≠ 0
              then s.backlashConfig else 0)⟩) := by
  unfold MoveAbsFocuser
  rw [if_neg h0, if_neg hne]

/-! ## The claims -/

/-- C1: for every starting position and every target in `[0, MaxPosition]`
with target ≠ position, `MoveAbsFocuser` spawns a motion worker whose
loop, run uninterrupted (`_abort` never set), terminates with the position
counter exactly equal to the target (within fuel
`backlash + |target - position|`), and the backlash pulses never change
the position counter: throughout the backlash phase `currentPos` stays at
the starting position. -/
theorem moveAbsFocuser_worker_reaches_target (s : FocuserState) (targetTicks : ℤ)
    (hcfg : 0 ≤ s.backlashConfig) (h0 : 0 ≤ targetTicks)
    (hmax : targetTicks ≤ s.maxPos) (hne : targetTicks ≠ s.pos) :
    ∃ r : MotionRequest,
      (MoveAbsFocuser s targetTicks).2.2 = some r ∧
      motorRun targetTicks r.direction
          (r.backlash.toNat + (targetTicks - s.pos).natAbs) (s.pos, r.backlash)
        = some (targetTicks, 0) ∧
      (∀ k : ℕ, (k : ℤ) ≤ r.backlash →
        ((motorStep r.direction)^[k] (s.pos, r.backlash)).1 = s.pos) := by
  have hbusy := MoveAbsFocuser_busy s targetTicks (by omega) hne
  set D : ℤ := if targetTicks > s.pos then 1 else -1 with hD
  set B : ℤ :=
    if s.lastDirection ≠ 0 ∧ D ≠ s.lastDirection ∧ s.backlashConfig ≠ 0
    then s.backlashConfig else 0 with hB
  have hBnn : 0 ≤ B := by rw [hB]; split_ifs <;> omega
  have hcast : ((B.toNat : ℤ)) = B := Int.toNat_of_nonneg hBnn
  refine ⟨⟨targetTicks, D, B⟩, by rw [hbusy], ?_, ?_⟩
  · have hphase : motorRun targetTicks D (B.toNat + (targetTicks - s.pos).natAbs)
        (s.pos, B) = motorRun targetTicks D ((targetTicks - s.pos).natAbs) (s.pos, 0) := by
      conv_lhs => rw [show ((s.pos, B) : ℤ × ℤ) = (s.pos, ((B.toNat : ℕ) : ℤ)) from by
        rw [hcast]]
      exact motorRun_backlash_phase targetTicks D s.pos (Ne.symm hne) B.toNat _
    rw [hphase]
    have hdir : D = 1 ∨ D = -1 := by rw [hD]; split_ifs <;> simp
    apply motorRun_travel targetTicks D hdir
    rw [hD]
    by_cases hgt : targetTicks > s.pos
    · rw [if_pos hgt]; omega
    · rw [if_neg hgt]; omega
  · intro k hk
    rw [motorStep_iterate_backlash D s.pos B k hk]

/-- C1 witness: a concrete reversal move from position 0 to target 5 with
backlash 3 runs to completion at exactly the target. -/
theorem moveAbsFocuser_worker_reaches_target_witness :
    ∃ r : MotionRequest,
      (MoveAbsFocuser ⟨0, 1000, -1, 3, 0⟩ 5).2.2 = some r ∧
      motorRun 5 r.direction (r.backlash.toNat + ((5 : ℤ) - 0).natAbs)
          ((0 : ℤ), r.backlash) = some (5, 0) ∧
      (∀ k : ℕ, (k : ℤ) ≤ r.backlash →
        ((motorStep r.direction)^[k] ((0 : ℤ), r.backlash)).1 = 0) :=
  moveAbsFocuser_worker_reaches_target ⟨0, 1000, -1, 3, 0⟩ 5
    (by norm_num) (by norm_num) (by norm_num) (by norm_num)

/-- C2: `MoveAbsFocuser` returns `IPS_ALERT` iff the requested target lies
outside `[0, MaxPosition]`, and the rejection happens before any state
effect (state unchanged, no worker spawned); a target equal to the current
position returns `IPS_OK` immediately as a no-op with no worker
spawned. -/
theorem moveAbsFocuser_range_check (s : FocuserState) (targetTicks : ℤ) :
    ((MoveAbsFocuser s targetTicks).1 = .Alert ↔
      (targetTicks < 0 ∨ targetTicks > s.maxPos))
    ∧ ((targetTicks < 0 ∨ targetTicks > s.maxPos) →
        MoveAbsFocuser s targetTicks = (.Alert, s, none))
    ∧ (0 ≤ targetTicks → targetTicks ≤ s.maxPos → targetTicks = s.pos →
        MoveAbsFocuser s targetTicks = (.Ok, s, none)) := by
  unfold MoveAbsFocuser
  by_cases h1 : targetTicks < 0 ∨ targetTicks > s.maxPos
  · rw [if_pos h1]
    exact ⟨by simp [h1], fun _ => rfl, fun h2 h3 _ => by exfalso; omega⟩
  · rw [if_neg h1]
    by_cases h2 : targetTicks = s.pos
    · rw [if_pos h2]
      exact ⟨by simp [h1], fun hc => absurd hc h1, fun _ _ _ => rfl⟩
    · rw [if_neg h2]
      exact ⟨by simp [h1], fun hc => absurd hc h1, fun _ _ h4 => absurd h4 h2⟩

/-- C3: when the remembered direction comes from a previous move (±1), the
spawned worker's backlash budget is exactly the configured backlash when
the new direction differs from it and the configured backlash is positive,
and 0 in every other case; and the worker emits exactly that many
non-counted pulses before any counted step: the position counter is still
at the start after the whole budget, and the very next pulse is the first
counted one. -/
theorem moveAbsFocuser_backlash_budget (s : FocuserState) (targetTicks : ℤ)
    (hdir : s.lastDirection = 1 ∨ s.lastDirection = -1)
    (hcfg : 0 ≤ s.backlashConfig) (h0 : 0 ≤ targetTicks)
    (hmax : targetTicks ≤ s.maxPos) (hne : targetTicks ≠ s.pos) :
    ∃ r : MotionRequest,
      (MoveAbsFocuser s targetTicks).2.2 = some r ∧
      (MoveAbsFocuser s targetTicks).2.1.backlashTicksRemaining = r.backlash ∧
      r.backlash = (if r.direction ≠ s.lastDirection ∧ 0 < s.backlashConfig
                    then s.backlashConfig else 0) ∧
      (∀ k : ℕ, (k : ℤ) ≤ r.backlash →
        ((motorStep r.direction)^[k] (s.pos, r.backlash)).1 = s.pos) ∧
      ((motorStep r.direction)^[r.backlash.toNat + 1] (s.pos, r.backlash)).1
        = s.pos + r.direction := by
  have hbusy := MoveAbsFocuser_busy s targetTicks (by omega) hne
  set D : ℤ := if targetTicks > s.pos then 1 else -1 with hD
  set B : ℤ :=
    if s.lastDirection ≠ 0 ∧ D ≠ s.lastDirection ∧ s.backlashConfig ≠ 0
    then s.backlashConfig else 0 with hB
  have hBnn : 0 ≤ B := by rw [hB]; split_ifs <;> omega
  have hcast : ((B.toNat : ℤ)) = B := Int.toNat_of_nonneg hBnn
  have hQP : (s.lastDirection ≠ 0 ∧ D ≠ s.lastDirection ∧ s.backlashConfig ≠ 0)
      ↔ (D ≠ s.lastDirection ∧ 0 < s.backlashConfig) := by
    constructor
    · rintro ⟨-, h2, h3⟩; exact ⟨h2, lt_of_le_of_ne hcfg (Ne.symm h3)⟩
    · rintro ⟨h2, h3⟩
      refine ⟨?_, h2, by omega⟩
      rcases hdir with h | h <;> rw [h] <;> norm_num
  refine ⟨⟨targetTicks, D, B⟩, by rw [hbusy], by rw [hbusy], ?_, ?_, ?_⟩
  · rw [hB, if_congr hQP rfl rfl]
  · intro k hk
    rw [motorStep_iterate_backlash D s.pos B k hk]
  · rw [Function.iterate_succ_apply',
      motorStep_iterate_backlash D s.pos B B.toNat (by omega)]
    have : B - (B.toNat : ℤ) = 0 := by omega
    rw [this]
    simp [motorStep]

/-- C3 witness: from position 10 with remembered direction +1, configured
backlash 2, moving to target 4 reverses direction and yields budget 2,
with the first counted pulse after exactly 2 backlash pulses. -/
theorem moveAbsFocuser_backlash_budget_witness :
    ∃ r : MotionRequest,
      (MoveAbsFocuser ⟨10, 1000, 1, 2, 0⟩ 4).2.2 = some r ∧
      (MoveAbsFocuser ⟨10, 1000, 1, 2, 0⟩ 4).2.1.backlashTicksRemaining = r.backlash ∧
      r.backlash = (if r.direction ≠ 1 ∧ (0 : ℤ) < 2 then 2 else 0) ∧
      (∀ k : ℕ, (k : ℤ) ≤ r.backlash →
        ((motorStep r.direction)^[k] ((10 : ℤ), r.backlash)).1 = 10) ∧
      ((motorStep r.direction)^[r.backlash.toNat + 1] ((10 : ℤ), r.backlash)).1
        = 10 + r.direction :=
  moveAbsFocuser_backlash_budget ⟨10, 1000, 1, 2, 0⟩ 4
    (Or.inl rfl) (by norm_num) (by norm_num) (by norm_num) (by norm_num)

/-- C10: the very first move after startup never receives backlash
compensation: with the remembered direction still at its initial
"no previous move" value 0, `MoveAbsFocuser` starts its worker with a
backlash budget of 0 regardless of the configured backlash value. -/
theorem first_move_no_backlash (s : FocuserState) (targetTicks : ℤ)
    (hfirst : s.lastDirection = initialLastDirection)
    (h0 : 0 ≤ targetTicks) (hmax : targetTicks ≤ s.maxPos)
    (hne : targetTicks ≠ s.pos) :
    ∃ r : MotionRequest,
      (MoveAbsFocuser s targetTicks).2.2 = some r ∧ r.backlash = 0 ∧
      (MoveAbsFocuser s targetTicks).2.1.backlashTicksRemaining = 0 := by
  have hbusy := MoveAbsFocuser_busy s targetTicks (by omega) hne
  rw [hfirst] at hbusy
  refine ⟨⟨targetTicks, (if targetTicks > s.pos then 1 else -1), 0⟩, ?_, rfl, ?_⟩
  · rw [hbusy]
    simp [initialLastDirection]
  · rw [hbusy]
    simp [initialLastDirection]

/-- C10 witness: the first move with configured backlash 7 still spawns
its worker with budget 0. -/
theorem first_move_no_backlash_witness :
    ∃ r : MotionRequest,
      (MoveAbsFocuser ⟨0, 1000, 0, 7, 0⟩ 3).2.2 = some r ∧ r.backlash = 0 ∧
      (MoveAbsFocuser ⟨0, 1000, 0, 7, 0⟩ 3).2.1.backlashTicksRemaining = 0 :=
  first_move_no_backlash ⟨0, 1000, 0, 7, 0⟩ 3 rfl
    (by norm_num) (by norm_num) (by norm_num)

/-- C4 (code-bug evaluation): a completed motion worker persists the
position normalized to the finest-resolution unit (line 1024), but
`SyncFocuser` persists the raw tick value with no normalization
(line 1152): at resolution 1, syncing to 1000 stores 1000 where the
normalized value — the one the load path of line 182 and the worker's own
"always save at MAX_RESOLUTION" comment require — is 32000. -/
theorem syncFocuser_persist_not_normalized :
    syncFocuserSavedPosition 1000 = 1000 ∧
    motorThreadSavedPosition 1000 1 = 32000 ∧
    syncFocuserSavedPosition 1000 ≠ motorThreadSavedPosition 1000 1 := by
  refine ⟨rfl, ?_, ?_⟩ <;>
    norm_num [syncFocuserSavedPosition, motorThreadSavedPosition, MAX_RESOLUTION]

/-! ## Lemmas about resolution rescaling -/

theorem position_adjustment_eq (pos lastRes : ℤ) :
    position_adjustment pos lastRes = pos % lastRes := by
  unfold position_adjustment
  rw [Int.emod_def]

theorem isResolution_pos {r : ℤ} (h : isResolution r) : 0 < r := by
  rcases h with rfl | rfl | rfl | rfl | rfl | rfl <;> norm_num

theorem isResolution_dvd {a b : ℤ} (ha : isResolution a) (hb : isResolution b)
    (h : a ≤ b) : a ∣ b := by
  rcases ha with rfl | rfl | rfl | rfl | rfl | rfl <;>
    rcases hb with rfl | rfl | rfl | rfl | rfl | rfl <;> omega

/-- The float comparison `(float)position_adjustment / last_resolution < 0.5`
of line 751 (exact, as the divisor is a power of two) as an integer
condition. -/
theorem half_condition (pa lastRes : ℤ) (h : 0 < lastRes) :
    ((pa : ℚ) / (lastRes : ℚ) < 1 / 2) ↔ 2 * pa < lastRes := by
  rw [div_lt_div_iff₀ (by exact_mod_cast h) (by norm_num), one_mul]
  constructor
  · intro hh
    exact_mod_cast (by push_cast; linarith : ((2 * pa : ℤ) : ℚ) < ((lastRes : ℤ) : ℚ))
  · intro hh
    have hq : ((2 * pa : ℤ) : ℚ) < ((lastRes : ℤ) : ℚ) := by exact_mod_cast hh
    push_cast at hq
    linarith

/-- The corrective realignment displacement is at most half an
old-resolution full step in absolute value. -/
theorem resolutionAdjustment_bound (pos lastRes newRes : ℤ) (hl : 0 < lastRes) :
    2 * |resolutionAdjustment pos lastRes newRes| ≤ lastRes := by
  unfold resolutionAdjustment
  rw [position_adjustment_eq]
  have hpa0 : 0 ≤ pos % lastRes := Int.emod_nonneg pos (by omega)
  have hpal : pos % lastRes < lastRes := Int.emod_lt_of_pos pos hl
  split_ifs with h1 h2
  · rw [abs_neg, abs_of_nonneg hpa0]
    have := (half_condition (pos % lastRes) lastRes hl).mp h2
    omega
  · rw [abs_of_nonneg (by omega : (0 : ℤ) ≤ lastRes - pos % lastRes)]
    have h2x : ¬(2 * (pos % lastRes) < lastRes) :=
      fun hc => h2 ((half_condition (pos % lastRes) lastRes hl).mpr hc)
    omega
  · rw [abs_zero]
    omega

/-- A nonzero corrective displacement realigns the position to a multiple
of the old resolution. -/
theorem resolutionAdjustment_dvd (pos lastRes newRes : ℤ)
    (h : resolutionAdjustment pos lastRes newRes ≠ 0) :
    lastRes ∣ (pos + resolutionAdjustment pos lastRes newRes) := by
  unfold resolutionAdjustment at *
  rw [position_adjustment_eq] at *
  split_ifs at * with h1 h2
  · exact ⟨pos / lastRes, by rw [Int.emod_def]; ring⟩
  · exact ⟨pos / lastRes + 1, by rw [Int.emod_def]; ring⟩
  · exact absurd rfl h

/-- Under the sequential ordering the spec intends (corrective move
completing before the rescale), changing resolution would be
scale-invariant: the realignment displacement is at most half an
old-resolution step, `Position/oldRes` and the rescaled
`Position'/newRes` agree within one grid unit (one full motor step), and
off the new grid the corrective move issued is `-remainder` when
`remainder/oldRes < 0.5` and `oldRes - remainder` otherwise.  The
source's program order does not realize this intent — see
`setResolution_rescale_overwritten`. -/
theorem setResolution_scale_invariant (pos maxPos lastRes newRes : ℤ)
    (hl : isResolution lastRes) (hn : isResolution newRes)
    (_hpos : 0 ≤ pos) (_hmax : pos ≤ maxPos) :
    2 * |resolutionAdjustment pos lastRes newRes| ≤ lastRes
    ∧ |pos * newRes - changeResolutionPos pos maxPos lastRes newRes * lastRes|
        ≤ lastRes * newRes
    ∧ (¬ (lastRes ∣ pos * newRes) →
        resolutionAdjustment pos lastRes newRes =
          (if 2 * (pos % lastRes) < lastRes
           then -(pos % lastRes) else lastRes - (pos % lastRes))) := by
  have hl0 : 0 < lastRes := isResolution_pos hl
  have hn0 : 0 < newRes := isResolution_pos hn
  refine ⟨resolutionAdjustment_bound pos lastRes newRes hl0, ?_, ?_⟩
  · unfold changeResolutionPos
    split_ifs with hmv
    · obtain ⟨hadj0, hge, hle⟩ := hmv
      obtain ⟨k, hk⟩ := resolutionAdjustment_dvd pos lastRes newRes hadj0
      set adj := resolutionAdjustment pos lastRes newRes with hadj
      have hdiv : (pos + adj) * newRes / lastRes = k * newRes := by
        rw [hk, mul_assoc]
        exact Int.mul_ediv_cancel_left _ (by omega)
      rw [hdiv]
      have habs : pos * newRes - k * newRes * lastRes = -adj * newRes := by
        have hkk : k * newRes * lastRes = (pos + adj) * newRes := by rw [hk]; ring
        rw [hkk]; ring
      rw [habs, abs_mul, abs_neg, abs_of_pos hn0]
      have hb := resolutionAdjustment_bound pos lastRes newRes hl0
      rw [← hadj] at hb
      exact mul_le_mul_of_nonneg_right (by omega : |adj| ≤ lastRes) (by omega)
    · have hmod0 : 0 ≤ pos * newRes % lastRes := Int.emod_nonneg _ (by omega)
      have hmodl : pos * newRes % lastRes < lastRes := Int.emod_lt_of_pos _ hl0
      have heq : pos * newRes - pos * newRes / lastRes * lastRes
          = pos * newRes % lastRes := by
        rw [Int.emod_def]; ring
      rw [heq, abs_of_nonneg hmod0]
      have : lastRes ≤ lastRes * newRes := le_mul_of_one_le_right (by omega) (by omega)
      omega
  · intro hndvd
    have hlt : newRes < lastRes := by
      by_contra hc
      push_neg at hc
      exact hndvd ((isResolution_dvd hl hn hc).mul_left pos)
    have hpa : 0 < pos % lastRes := by
      have h0 : 0 ≤ pos % lastRes := Int.emod_nonneg pos (by omega)
      rcases h0.lt_or_eq with h | h
      · exact h
      · exact absurd ((Int.dvd_of_emod_eq_zero h.symm).mul_right newRes) hndvd
    unfold resolutionAdjustment
    rw [position_adjustment_eq, if_pos ⟨hlt, hpa⟩]
    exact if_congr (half_condition (pos % lastRes) lastRes hl0) rfl rfl

/-- C5 (code-bug evaluation): changing resolution 1/32 → 1/8 at position
310 (max 10000): the corrective move to 320 is spawned (remainder 22,
22/32 ≥ 0.5, displacement +10, line 760), the handler immediately
rescales 310 → 77 (line 775), and the worker's exit then overwrites the
position with 320 in old-resolution units (lines 1017-1020).  The final
position 320 at 1/8 is 40 full steps where the old position 310 at 1/32
was ≈ 9.7 full steps — the claimed scale invariance is violated by a
factor of oldRes/newRes; the sequential intent (`changeResolutionPos`,
yielding 80 at 1/8 = 10 full steps) would satisfy it. -/
theorem setResolution_rescale_overwritten :
    changeResolutionPosProgramOrder 310 10000 32 8 = 320 ∧
    ¬ (|(310 : ℤ) * 8 - changeResolutionPosProgramOrder 310 10000 32 8 * 32|
        ≤ 32 * 8) ∧
    changeResolutionPos 310 10000 32 8 = 80 ∧
    |(310 : ℤ) * 8 - changeResolutionPos 310 10000 32 8 * 32| ≤ 32 * 8 := by
  have hadj : resolutionAdjustment 310 32 8 = 10 := by
    norm_num [resolutionAdjustment, position_adjustment]
  refine ⟨?_, ?_, ?_, ?_⟩ <;>
    norm_num [changeResolutionPosProgramOrder, changeResolutionPos, hadj]

/-- C8: the thermal compensator issues a move only when
`|coefficient * (currentTemp - lastTemperature)|` exceeds half the
steps-per-critical-focus-zone value, with the target rounded from
`Position + coefficient * deltaTemperature`; and when compensation is
disabled, the temperature is unchanged or the computed compensation is at
or below the threshold, the call issues no move and leaves
`lastTemperature` (and hence the position) unchanged. -/
theorem temperatureCompensation_threshold (connected enabled : Bool)
    (t lt coef cfz : ℚ) (pos : ℤ) :
    (∀ tgt, (temperatureCompensation connected enabled t lt coef cfz pos).1 = some tgt →
        |coef * (t - lt)| > cfz / 2 ∧
        tgt = pos + roundHalfAway (coef * (t - lt)))
    ∧ ((enabled = false ∨ t = lt ∨ |coef * (t - lt)| ≤ cfz / 2) →
        temperatureCompensation connected enabled t lt coef cfz pos = (none, lt)) := by
  unfold temperatureCompensation
  by_cases hc : connected = false
  · rw [if_pos hc]
    exact ⟨fun tgt h => by simp at h, fun _ => rfl⟩
  · rw [if_neg hc]
    by_cases h2 : enabled = true ∧ t ≠ lt
    · rw [if_pos h2]
      by_cases h3 : |coef * (t - lt)| > cfz / 2
      · rw [if_pos h3]
        refine ⟨fun tgt h => ?_, fun hdisj => ?_⟩
        · have hs : some (pos + roundHalfAway (coef * (t - lt))) = some tgt := h
          exact ⟨h3, (Option.some_injective _ hs).symm⟩
        · rcases hdisj with h | h | h
          · exact absurd h2.1 (by simp [h])
          · exact absurd h h2.2
          · exact absurd h3 (not_lt.mpr h)
      · rw [if_neg h3]
        exact ⟨fun tgt h => by simp at h, fun _ => rfl⟩
    · rw [if_neg h2]
      exact ⟨fun tgt h => by simp at h, fun _ => rfl⟩

/-- C9 counterexample: the thermal compensator itself writes
`lastTemperature` (line 1186): with compensation enabled, temperatures
0 → 10, coefficient 10 and half-CFZ 1, the call both issues the move to
100 and immediately sets `lastTemperature` to 10 — before any worker has
run. -/
theorem temperatureCompensation_writes_lastTemperature_immediately :
    (temperatureCompensation true true 10 0 10 2 0).2 = 10 ∧
    (temperatureCompensation true true 10 0 10 2 0).1 = some 100 ∧
    (10 : ℚ) ≠ 0 := by
  norm_num [temperatureCompensation, roundHalfAway]

/-- C9 amended: `temperatureCompensation` updates `lastTemperature` to the
current temperature immediately whenever it issues a compensating move
(line 1186), in addition to the worker's own update at exit (line 1025);
when no move is issued it leaves `lastTemperature` unchanged. -/
theorem temperatureCompensation_lastTemperature_update (connected enabled : Bool)
    (t lt coef cfz : ℚ) (pos : ℤ) :
    ((temperatureCompensation connected enabled t lt coef cfz pos).1.isSome = true →
        (temperatureCompensation connected enabled t lt coef cfz pos).2 = t)
    ∧ ((temperatureCompensation connected enabled t lt coef cfz pos).1 = none →
        (temperatureCompensation connected enabled t lt coef cfz pos).2 = lt) := by
  unfold temperatureCompensation
  split_ifs <;> constructor <;> intro h <;> first | rfl | simp at h

/-! ## Lemmas about the light-sensor accumulation -/

/-- Below 5 accumulated cycles a valid sample is always accumulated. -/
theorem tslReadStep_accumulates (s : TSLState) (full ir : ℤ)
    (hvalid : ir ≤ full) (hk : s.niter < 5) :
    (tslReadStep s full ir).1 =
      ⟨s.niter + 1, s.fullCumulative + full, s.irCumulative + ir⟩ ∧
    (tslReadStep s full ir).2 = none := by
  unfold tslReadStep
  rw [if_neg (not_lt.mpr hvalid), if_pos (Or.inl hk)]
  exact ⟨rfl, rfl⟩

/-- With at least 5 cycles accumulated and the visible running sum at
least 500 (or 150 cycles), a valid read-out event finalizes: it resets the
state and publishes `visCumulative / (29628 * niter)`. -/
theorem tslReadStep_finalizes (s : TSLState) (full ir : ℤ)
    (hvalid : ir ≤ full) (h5 : 5 ≤ s.niter)
    (hvis : 500 ≤ s.fullCumulative - s.irCumulative ∨ 150 ≤ s.niter) :
    tslReadStep s full ir =
      (tslInit,
       some ((s.fullCumulative - s.irCumulative : ℚ) / (29628 * (s.niter : ℚ)))) := by
  unfold tslReadStep
  rw [if_neg (not_lt.mpr hvalid), if_neg (by rintro (h | ⟨hb, hc⟩) <;> omega)]

/-- Accumulating up to five valid samples from a state with room counts
the cycles and sums the channels. -/
theorem tslAccumulate_full (samples : List (ℤ × ℤ)) (s : TSLState)
    (hvalid : ∀ p ∈ samples, p.2 ≤ p.1) (hlen : s.niter + samples.length ≤ 5) :
    tslAccumulate s samples =
      ⟨s.niter + samples.length,
       s.fullCumulative + (samples.map Prod.fst).sum,
       s.irCumulative + (samples.map Prod.snd).sum⟩ := by
  induction samples generalizing s with
  | nil => simp [tslAccumulate]
  | cons p l ih =>
      have hv : p.2 ≤ p.1 := hvalid p (by simp)
      have hlt : s.niter < 5 := by simp [List.length_cons] at hlen; omega
      have ihh := ih ⟨s.niter + 1, s.fullCumulative + p.1, s.irCumulative + p.2⟩
        (fun q hq => hvalid q (List.mem_cons_of_mem p hq))
        (by simp [List.length_cons] at hlen ⊢; omega)
      unfold tslAccumulate at ihh ⊢
      rw [List.foldl_cons, (tslReadStep_accumulates s p.1 p.2 hv hlt).1, ihh]
      simp only [List.length_cons, List.map_cons, List.sum_cons, TSLState.mk.injEq]
      refine ⟨by omega, by ring, by ring⟩

/-- C6 (amended: the visible-sum threshold is `≥ 500`, not `> 500`): a
valid read-out event finalizes a reading — resetting the running sums and
cycle counter — iff at least 5 cycles have accumulated and the visible
running sum `fullCumulative - irCumulative` has reached 500 or 150 cycles
have accumulated; the published value is `visible / (29628 · n)` with `n`
the number of accumulated cycles, which the driver turns into the
brightness `12.6 - 1.086 · ln(VIS) + offset + FILTER_COEFF` (line 1477);
and a deterministic sequence of 5 valid samples with visible sum ≥ 500
followed by one more valid read-out publishes exactly that formula's
argument with `n = 5`. -/
theorem tslRead_finalization (s : TSLState) (full ir : ℤ)
    (samples : List (ℤ × ℤ)) (f6 i6 : ℤ) (offset : ℝ) :
    (ir ≤ full →
      ((tslReadStep s full ir).2 ≠ none ↔
        (5 ≤ s.niter ∧
          (500 ≤ s.fullCumulative - s.irCumulative ∨ 150 ≤ s.niter))))
    ∧ (∀ v, (tslReadStep s full ir).2 = some v →
        (tslReadStep s full ir).1 = tslInit ∧
        v = (s.fullCumulative - s.irCumulative : ℚ) / (29628 * (s.niter : ℚ)) ∧
        12.6 - 1.086 * Real.log ((v : ℚ) : ℝ) + offset + (-1.2)
          = 12.6 - 1.086 * Real.log
              (((s.fullCumulative - s.irCumulative : ℤ) : ℝ)
                / ((29628 : ℝ) * (s.niter : ℝ))) + offset + (-1.2))
    ∧ ((∀ p ∈ samples, p.2 ≤ p.1) → samples.length = 5 →
        500 ≤ (samples.map Prod.fst).sum - (samples.map Prod.snd).sum →
        i6 ≤ f6 →
        (tslReadStep (tslAccumulate tslInit samples) f6 i6).2 =
          some ((((samples.map Prod.fst).sum - (samples.map Prod.snd).sum : ℤ) : ℚ)
            / (29628 * (5 : ℚ)))) := by
  refine ⟨?_, ?_, ?_⟩
  · intro hvalid
    unfold tslReadStep
    rw [if_neg (not_lt.mpr hvalid)]
    split_ifs with hcond
    · exact iff_of_false (by simp) (by omega)
    · exact iff_of_true (by simp) (by omega)
  · intro v hv
    have hfin : ¬ full < ir ∧
        ¬ (s.niter < 5 ∨ (s.fullCumulative - s.irCumulative < 500 ∧ s.niter < 150)) := by
      by_contra hc
      push_neg at hc
      unfold tslReadStep at hv
      rcases Classical.em (full < ir) with h1 | h1
      · rw [if_pos h1] at hv; exact Option.noConfusion hv
      · rw [if_neg h1] at hv
        rcases Classical.em (s.niter < 5 ∨
            (s.fullCumulative - s.irCumulative < 500 ∧ s.niter < 150)) with h2 | h2
        · rw [if_pos h2] at hv; exact Option.noConfusion hv
        · exact h2 (hc (not_lt.mp h1))
    obtain ⟨h1, h2⟩ := hfin
    have hstep := tslReadStep_finalizes s full ir (not_lt.mp h1) (by omega)
      (by omega)
    rw [hstep] at hv ⊢
    have hveq : v = (s.fullCumulative - s.irCumulative : ℚ) / (29628 * (s.niter : ℚ)) :=
      (Option.some_injective _ hv).symm
    refine ⟨rfl, hveq, ?_⟩
    rw [hveq]
    have hcast : (((s.fullCumulative - s.irCumulative : ℚ)
        / (29628 * (s.niter : ℚ)) : ℚ) : ℝ)
        = ((s.fullCumulative - s.irCumulative : ℤ) : ℝ)
            / ((29628 : ℝ) * (s.niter : ℝ)) := by
      push_cast
      ring
    rw [hcast]
  · intro hvalid hlen hvis h6
    have hacc := tslAccumulate_full samples tslInit hvalid
      (by simp [tslInit, hlen])
    rw [hacc]
    have hstep := tslReadStep_finalizes
      ⟨tslInit.niter + samples.length,
       tslInit.fullCumulative + (samples.map Prod.fst).sum,
       tslInit.irCumulative + (samples.map Prod.snd).sum⟩ f6 i6 h6
      (by simp [tslInit, hlen]) (by simp only [tslInit]; omega)
    rw [hstep]
    simp [tslInit, hlen]

/-- C6 counterexample to the claim as stated: after five accumulated
samples `(100, 0)` the visible running sum is exactly 500 — it does not
exceed 500, and only 5 < 150 cycles have accumulated — yet the next valid
read-out event finalizes and publishes a reading. -/
theorem tsl_finalizes_at_visible_sum_500 :
    (tslReadStep (tslAccumulate tslInit
        [(100, 0), (100, 0), (100, 0), (100, 0), (100, 0)]) 0 0).2.isSome = true
    ∧ ¬ ((500 : ℤ) > 500) ∧ ¬ ((150 : ℕ) ≤ 5) := by
  refine ⟨?_, by norm_num, by norm_num⟩
  have hacc := tslAccumulate_full
    [(100, 0), (100, 0), (100, 0), (100, 0), (100, 0)] tslInit
    (by intro p hp; fin_cases hp <;> norm_num) (by simp [tslInit])
  rw [hacc]
  rw [tslReadStep_finalizes _ 0 0 le_rfl (by simp [tslInit])
    (by simp [tslInit])]
  rfl

/-! ## Lemmas about the power acquirer -/

/-- Every `readPower` invocation with the sensor reachable advances the
cycle index by one, wrapping above 5 back to 0, in all branches. -/
theorem readPowerStep_index (s : PowerState) (w r : Bool) (b0 b1 : ℤ) :
    (readPowerStep s w r b0 b1).1.powerIndex =
      (if s.powerIndex + 1 > 5 then 0 else s.powerIndex + 1) := by
  simp only [readPowerStep]
  split_ifs <;> rfl

/-- C7 counterexample to the claim as stated: after a reachable trace that
sets a nonzero total current, the eighth tick is a read of the Vin channel
(index 1), yet the amp-second energy accumulator changes on it — the
integration is not restricted to the Itot channel's read; moreover the
raw bytes (1, 0) are assembled as `1 * 255 + 0 = 255`, not as the 16-bit
value `1 * 256 + 0`. -/
theorem readPower_integrates_on_vin_read :
    cexPowerTrace7.powerIndex = 1 ∧
    cexPowerTrace8.energyAs ≠ cexPowerTrace7.energyAs ∧
    toInt16 (1 * 255 + 0) = 255 ∧ toInt16 (1 * 255 + 0) ≠ 1 * 256 + 0 := by
  refine ⟨rfl, ?_, by decide, by decide⟩
  norm_num [cexPowerTrace8, cexPowerTrace7, powerTick, readPowerStep,
    powerInit, toInt16]

/-- C7 (amended): on every invocation with the sensor reachable the cycle
index advances by exactly one and wraps from 5 back to 0; even indices
write a trigger command selecting channel `index / 2` (0 Vin, 1 Vreg,
2 Itot) and change no reading or accumulator; odd indices with both bus
transfers succeeding assemble the result as `high * 255 + low` taken as a
signed 16-bit value, scale it by the channel-specific reference/gain
factor into the channel `index` selects, and — on every successful odd
read, not only the Itot one — integrate the energy accumulators by the
latest current × 0.4 s and latest power × 0.4 s, exposing them as
amp-hours/watt-hours by dividing by 3600. -/
theorem readPower_cycle_properties (s : PowerState) (writeOk readOk : Bool)
    (b0 b1 : ℤ) :
    (s.powerIndex ≤ 5 →
      (readPowerStep s writeOk readOk b0 b1).1.powerIndex =
        (if s.powerIndex = 5 then 0 else s.powerIndex + 1))
    ∧ (s.powerIndex % 2 = 0 →
        (readPowerStep s writeOk readOk b0 b1).2 = some (s.powerIndex / 2) ∧
        (readPowerStep s writeOk readOk b0 b1).1.energyAs = s.energyAs ∧
        (readPowerStep s writeOk readOk b0 b1).1.energyWs = s.energyWs ∧
        (readPowerStep s writeOk readOk b0 b1).1.vin = s.vin ∧
        (readPowerStep s writeOk readOk b0 b1).1.vreg = s.vreg ∧
        (readPowerStep s writeOk readOk b0 b1).1.itot = s.itot)
    ∧ (s.powerIndex % 2 = 1 → writeOk = true → readOk = true →
        ((readPowerStep s writeOk readOk b0 b1).1.energyAs
            = s.energyAs + (readPowerStep s writeOk readOk b0 b1).1.itot * 0.4 ∧
         (readPowerStep s writeOk readOk b0 b1).1.energyWs
            = s.energyWs + (readPowerStep s writeOk readOk b0 b1).1.vin *
                (readPowerStep s writeOk readOk b0 b1).1.itot * 0.4 ∧
         (readPowerStep s writeOk readOk b0 b1).1.ah
            = (readPowerStep s writeOk readOk b0 b1).1.energyAs / 3600 ∧
         (readPowerStep s writeOk readOk b0 b1).1.wh
            = (readPowerStep s writeOk readOk b0 b1).1.energyWs / 3600) ∧
        (s.powerIndex = 1 →
          (readPowerStep s writeOk readOk b0 b1).1.vin
            = (toInt16 (b0 * 255 + b1) : ℚ) / 32768 * 4.096 * 6.6 ∧
          (readPowerStep s writeOk readOk b0 b1).1.itot = s.itot) ∧
        (s.powerIndex = 3 →
          (readPowerStep s writeOk readOk b0 b1).1.vreg
            = (toInt16 (b0 * 255 + b1) : ℚ) / 32768 * 4.096 * 6.6 ∧
          (readPowerStep s writeOk readOk b0 b1).1.vin = s.vin ∧
          (readPowerStep s writeOk readOk b0 b1).1.itot = s.itot) ∧
        (s.powerIndex = 5 →
          (readPowerStep s writeOk readOk b0 b1).1.itot
            = (toInt16 (b0 * 255 + b1) : ℚ) / 32768 * 4.096 * 1 * 20)) := by
  refine ⟨?_, ?_, ?_⟩
  · intro h5
    rw [readPowerStep_index]
    split_ifs <;> omega
  · intro he
    simp only [readPowerStep]
    rw [if_pos he]
    exact ⟨rfl, rfl, rfl, rfl, rfl, rfl⟩
  · intro ho hw hr
    simp only [readPowerStep]
    rw [if_neg (by omega), if_pos ⟨hw, hr⟩]
    by_cases h1 : s.powerIndex = 1
    · rw [if_pos h1]
      exact ⟨⟨rfl, rfl, rfl, rfl⟩, fun _ => ⟨rfl, rfl⟩,
        fun hx => absurd hx (by omega), fun hx => absurd hx (by omega)⟩
    · rw [if_neg h1]
      by_cases h3 : s.powerIndex = 3
      · rw [if_pos h3]
        exact ⟨⟨rfl, rfl, rfl, rfl⟩, fun hx => absurd hx h1,
          fun _ => ⟨rfl, rfl, rfl⟩, fun hx => absurd hx (by omega)⟩
      · rw [if_neg h3]
        by_cases h5 : s.powerIndex = 5
        · rw [if_pos h5]
          exact ⟨⟨rfl, rfl, rfl, rfl⟩, fun hx => absurd hx h1,
            fun hx => absurd hx h3, fun _ => rfl⟩
        · rw [if_neg h5]
          exact ⟨⟨rfl, rfl, rfl, rfl⟩, fun hx => absurd hx h1,
            fun hx => absurd hx h3, fun hx => absurd hx h5⟩

end AstroLink4Pi
